import Mathlib

/-!
A shallow embedding of the core of the CodeWordle repository
(`src/main.cpp`): the reveal grid and matching engine (`CodeSnippet`), the
generic turn cycle (`Game::makeGuess`), and the three game-mode policies
(`guessLimitedGame`, `timeAttackGame`, `pointGame`).

Modelling choices:
* the C++ per-cell `int` state (0/1/2) is embedded as the inductive
  `CellState`;
* a line and its parallel state vector are zipped into one
  `List (Char × CellState)`; the characters are never mutated, only states;
* small non-negative machine-integer counters are embedded as `Nat`, the
  clock seconds of the time-attack mode as `Int`, and the `double` scoring
  coefficients as `ℚ` (every scoring computation checked below is exact in
  binary64, so the rational model agrees with the C++ values);
* the `std::mt19937` draws are embedded as an explicit index parameter:
  `CodeSnippet.reveal` takes the drawn number and reduces it modulo the
  candidate count, which covers every value the uniform distribution over
  the candidate set can produce.
-/

/-- Reveal state of one character cell; in the source these are the `int`
constants `UNGUESSED = 0`, `FUZZY_MATCH = 1`, `EXACT_MATCH = 2`. -/
inductive CellState
  | unguessed
  | fuzzyMatch
  | exactMatch
deriving DecidableEq, Repr

/-- Source constant `CodeSnippet::MIN_LEN`. -/
def MIN_LEN : Nat := 3

/-- Source constant `CodeSnippet::FUZZY_FAIL`. -/
def FUZZY_FAIL : Nat := 1

/-- Source constant `CodeSnippet::FUZZY_COUNT`. -/
def FUZZY_COUNT : Nat := 2

/-- One snippet line together with its parallel reveal-state vector. -/
abbrev Line := List (Char × CellState)

/-- A freshly loaded line: every cell starts `unguessed` (the C++ state
vector is value-initialized to 0). -/
def mkLine (cs : List Char) : Line := cs.map (fun c => (c, CellState.unguessed))

/-- The character sequence of a line (the immutable `code[i]` string). -/
def lineChars (l : Line) : List Char := l.map Prod.fst

/-- Character of a line at position `p` (blank when out of range; the C++
code never reads out of range, which claim C10 establishes). -/
def charAt (l : Line) (p : Nat) : Char := (l.getD p (' ', CellState.unguessed)).1

/-- Reveal state of a line at position `p`. -/
def stateAt (l : Line) (p : Nat) : CellState := (l.getD p (' ', CellState.unguessed)).2

/-- Overwrite the states of cells `j ≤ p < j + len` by `f` applied to the
old state; this is the in-place window update loop of `CodeSnippet::guess`. -/
def updRange (f : CellState → CellState) (j len : Nat) (l : Line) : Line :=
  match l with
  | [] => []
  | c :: l' =>
    match j with
    | 0 =>
      match len with
      | 0 => c :: l'
      | len' + 1 => (c.1, f c.2) :: updRange f 0 len' l'
    | j' + 1 => c :: updRange f j' len l'

/-- State update of the exact branch: `state[i][j+k] = EXACT_MATCH`. -/
def exactUpd : CellState → CellState := fun _ => CellState.exactMatch

/-- State update of the fuzzy branch: only `UNGUESSED` cells become
`FUZZY_MATCH`. -/
def fuzzyUpd : CellState → CellState :=
  fun s => if s = CellState.unguessed then CellState.fuzzyMatch else s

/-- Window of `len` characters starting at offset `j` (the C++
`line.substr(j, len)`). -/
def windowTextC (chars : List Char) (j len : Nat) : List Char := (chars.drop j).take len

/-- Window text of a line, reading only the immutable characters. -/
def windowText (l : Line) (j len : Nat) : List Char := windowTextC (lineChars l) j len

/-- Number of offsets where window text and guess differ
(the C++ `failmatch` loop). -/
def failCount (w g : List Char) : Nat := (w.zip g).countP (fun p => decide (p.1 ≠ p.2))

/-- Number of non-blank characters of the guess (the C++ `count`). -/
def significant (g : List Char) : Nat := g.countP (fun c => decide (c ≠ ' '))

/-- One iteration of the window scan of `CodeSnippet::guess` (source lines
184-220): the exact branch takes precedence and skips the fuzzy evaluation
via `continue`; the fuzzy branch is guarded by `fuzzyAllowed`. -/
def guessWindow (g : List Char) (fuzzyAllowed : Bool) (acc : Line × Nat × Nat) (j : Nat) :
    Line × Nat × Nat :=
  if windowText acc.1 j g.length = g then
    (updRange exactUpd j g.length acc.1, acc.2.1 + 1, acc.2.2)
  else if fuzzyAllowed = true ∧ failCount (windowText acc.1 j g.length) g ≤ FUZZY_FAIL ∧
      FUZZY_COUNT ≤ significant g then
    (updRange fuzzyUpd j g.length acc.1, acc.2.1, acc.2.2 + 1)
  else
    acc

/-- The window start offsets scanned on one line: `0 ≤ j ≤ size - len`.
The list is empty when the line is shorter than the guess, exactly as the
C++ signed comparison `j <= (int)line.size() - len` makes the loop body
unreachable there. -/
def windowStarts (lineLen len : Nat) : List Nat := List.range (lineLen + 1 - len)

/-- Per-line body of `CodeSnippet::guess`: scan all windows left to right,
threading the mutated state vector and the two counters. -/
def guessLine (g : List Char) (fuzzyAllowed : Bool) (l : Line) : Line × Nat × Nat :=
  (windowStarts l.length g.length).foldl (guessWindow g fuzzyAllowed) (l, 0, 0)

/-- Whether window `j` is an exact match; depends only on the immutable
characters of the line. -/
def exactCond (chars g : List Char) (j : Nat) : Bool :=
  decide (windowTextC chars j g.length = g)

/-- Whether window `j` satisfies the fuzzy rule (and is not exact); depends
only on the immutable characters of the line. -/
def fuzzyCond (chars g : List Char) (j : Nat) : Bool :=
  !(exactCond chars g j) &&
    decide (failCount (windowTextC chars j g.length) g ≤ FUZZY_FAIL) &&
    decide (FUZZY_COUNT ≤ significant g)

/-- The reveal grid of one snippet: lines with per-cell state, plus the
session's fuzzy-matching flag. -/
structure CodeSnippet where
  lines : List Line
  fuzzyAllowed : Bool
deriving DecidableEq, Repr

/-- The matching engine `CodeSnippet::guess` (source lines 171-223).
Returns the mutated snippet together with the pair `result`:
`(-1, -1)` when the guess is shorter than `MIN_LEN`, otherwise the exact
count and either the fuzzy count or the `-1` "fuzzy disabled" sentinel. -/
def CodeSnippet.guess (s : CodeSnippet) (g : List Char) : CodeSnippet × Int × Int :=
  if g.length < MIN_LEN then (s, -1, -1)
  else
    let rs := s.lines.map (fun l => guessLine g s.fuzzyAllowed l)
    (⟨rs.map Prod.fst, s.fuzzyAllowed⟩,
      ((rs.map (fun r => r.2.1)).sum : Int),
      if s.fuzzyAllowed then ((rs.map (fun r => r.2.2)).sum : Int) else -1)

/-- Number of non-blank characters (`CodeSnippet::getTotalNumber`). -/
def CodeSnippet.getTotalNumber (s : CodeSnippet) : Nat :=
  (s.lines.map (fun l => l.countP (fun cs => decide (cs.1 ≠ ' ')))).sum

/-- Number of non-blank exactly-guessed characters
(`CodeSnippet::getGuessedNumber`). -/
def CodeSnippet.getGuessedNumber (s : CodeSnippet) : Nat :=
  (s.lines.map (fun l =>
    l.countP (fun cs => decide (cs.1 ≠ ' ') && decide (cs.2 = CellState.exactMatch)))).sum

/-- Cell test used by `CodeSnippet::check`: a cell is satisfied when it is
blank or exactly matched. -/
def cellOK (cs : Char × CellState) : Bool :=
  decide (cs.1 = ' ') || decide (cs.2 = CellState.exactMatch)

/-- Completion test `CodeSnippet::check`: every non-blank cell is exactly
matched. -/
def CodeSnippet.check (s : CodeSnippet) : Bool :=
  s.lines.all (fun l => l.all cellOK)

/-- Candidate positions of `CodeSnippet::reveal`: all non-blank cells that
are not yet exactly matched, in line order. -/
def CodeSnippet.posVec (s : CodeSnippet) : List (Nat × Nat) :=
  (s.lines.enum.map (fun il =>
    ((List.range il.2.length).filter (fun j =>
      decide (charAt il.2 j ≠ ' ') && decide (stateAt il.2 j ≠ CellState.exactMatch))).map
      (fun j => (il.1, j)))).flatten

/-- Set one cell of one line to `EXACT_MATCH`
(the write `state[pos[0]][pos[1]] = EXACT_MATCH`). -/
def setExactLines : Nat → Nat → List Line → List Line
  | _, _, [] => []
  | 0, j, l :: ls => updRange exactUpd j 1 l :: ls
  | i + 1, j, l :: ls => l :: setExactLines i j ls

/-- The assist reveal `CodeSnippet::reveal`: no-op when every non-blank
cell is exact, otherwise set one candidate cell to `EXACT_MATCH`.  The
random draw is modelled by the index parameter `n`, reduced modulo the
candidate count. -/
def CodeSnippet.reveal (s : CodeSnippet) (n : Nat) : CodeSnippet :=
  let pv := s.posVec
  if pv = [] then s
  else
    let pos := pv.getD (n % pv.length) (0, 0)
    ⟨setExactLines pos.1 pos.2 s.lines, s.fuzzyAllowed⟩

/-- A grid-mutating operation: one `guess` call or one assist `reveal`. -/
inductive Op
  | guessOp (g : List Char)
  | revealOp (n : Nat)

/-- Apply one operation to the reveal grid. -/
def applyOp (s : CodeSnippet) : Op → CodeSnippet
  | Op.guessOp g => (s.guess g).1
  | Op.revealOp n => s.reveal n

/-- Apply a sequence of operations to the reveal grid. -/
def applyOps (s : CodeSnippet) (ops : List Op) : CodeSnippet := ops.foldl applyOp s

/-- Session state shared by all game modes (`Game`'s data members that the
turn cycle touches).  The game object's `fuzzyAllowed`/`showPID` toggles
are distinct from the snippet's own fuzzy flag, as in the source. -/
structure GameState where
  snippet : CodeSnippet
  guesses : Nat
  fuzzyAllowed : Bool
  showPID : Bool
deriving DecidableEq, Repr

/-- Perform `n` assist reveals in a row (the `while(count--)` loop of
`Game::makeGuess`), consuming one random draw per reveal. -/
def revealN : CodeSnippet → Nat → List Nat → CodeSnippet
  | s, 0, _ => s
  | s, n + 1, rands => revealN (s.reveal (rands.headD 0)) n rands.tail

/-- The rejection message of `Game::makeGuess` for a too-short guess,
built exactly as in the source with `MIN_LEN` interpolated. -/
def tooShortMsg : String := "Guess must be at least " ++ toString MIN_LEN ++ " chars"

/-- The generic turn cycle `Game::makeGuess` (source lines 584-619).
`revTimes` is the virtual `revealTimes()` policy, a function of the guess
counter after the increment (the only mutable state it reads in the
guess-limited and point modes; the time-attack instance is modelled
separately by `timeAttack.revealTimes`).  `rands` supplies the random
draws for the assist reveals. -/
def Game.makeGuess (revTimes : Nat → Nat) (rands : List Nat) (st : GameState)
    (g : List Char) : GameState × List String :=
  if st.showPID = false ∧ g = ['P'] then
    ({ st with showPID := true }, ["PID showing enabled"])
  else if st.fuzzyAllowed = false ∧ g = ['F'] then
    ({ st with fuzzyAllowed := true }, ["Fuzzy match enabled"])
  else
    let r := st.snippet.guess g
    if r.2.1 = -1 then
      ({ st with snippet := r.1 }, [tooShortMsg])
    else
      let st1 : GameState := { st with snippet := r.1, guesses := st.guesses + 1 }
      let st2 : GameState := { st1 with snippet := revealN st1.snippet (revTimes st1.guesses) rands }
      let msg0 := toString r.2.1 ++ " matches found"
      let msg1 := if r.2.2 ≠ -1 then msg0 ++ ", " ++ toString r.2.2 ++ " fuzzy matches found"
                  else msg0
      (st2, [msg1 ++ "."])

/-- Guess-limited mode state (`guessLimitedGame`). -/
structure GLGame where
  snippet : CodeSnippet
  guesses : Nat
  maxGuesses : Nat
deriving DecidableEq, Repr

/-- The part of `guessLimitedGame::start` that initializes the session
from a freshly loaded snippet (the repository draw itself is out of the
embedded core): `maxGuesses = max(total/3 + 5, 30)`. -/
def guessLimitedStart (snippet : CodeSnippet) : GLGame :=
  { snippet := snippet, guesses := 0,
    maxGuesses := max (snippet.getTotalNumber / 3 + 5) 30 }

/-- Termination test `guessLimitedGame::isOver`: `guesses >= maxGuesses`. -/
def GLGame.isOver (gm : GLGame) : Bool := decide (gm.maxGuesses ≤ gm.guesses)

/-- Source constant `timeAttackGame::revealTime` (seconds per assist). -/
def revealTime : Nat := 10

/-- The time-attack state read and written by `revealTimes` (the
`lastRevealTime` steady-clock timestamp, in whole seconds). -/
structure TAGame where
  lastRevealTime : Int
deriving DecidableEq, Repr

/-- The catch-up assist cadence `timeAttackGame::revealTimes` (source
lines 759-767): integer number of whole 10-second intervals elapsed since
the last assist, with the timestamp advanced by exactly that many
intervals (not to `now`). -/
def timeAttack.revealTimes (now : Int) (gm : TAGame) : Int × TAGame :=
  let result := (now - gm.lastRevealTime) / (revealTime : Int)
  (result, { lastRevealTime := gm.lastRevealTime + (revealTime : Int) * result })

/-- Source constant `pointGame::showPidPenalty` (0.5). -/
def showPidPenalty : ℚ := 1 / 2

/-- Source constant `pointGame::fuzzyPenalty` (0.8). -/
def fuzzyPenalty : ℚ := 4 / 5

/-- The scoring coefficients stored by the `pointGame` constructor. -/
structure PointConfig where
  guessPenalty : ℚ
  pointFactor : ℚ
  rewardFactor : ℚ
deriving DecidableEq, Repr

/-- The validating `pointGame` constructor (source lines 830-845); each
violated precondition throws an `AppException` with the given message,
modelled as the error side of `Except`. -/
def pointGameMk (penalty pfactor rfactor : ℚ) : Except String PointConfig :=
  if penalty ≤ 0 then Except.error "Penalty must be positive"
  else if pfactor ≤ 0 then Except.error "Point factor must be positive"
  else if rfactor < 1 then Except.error "Reward factor must be not less than 1.0"
  else Except.ok ⟨penalty, pfactor, rfactor⟩

/-- Whether an `Except` result is a success. -/
def exceptIsOk (e : Except String PointConfig) : Bool :=
  match e with
  | Except.ok _ => true
  | Except.error _ => false

/-- The scoring formula `pointGame::calcPoint` (source lines 859-874):
base points, then the 0.5 PID penalty, then the 0.8 fuzzy penalty, then
the completion reward, in the source's order. -/
def calcPoint (cfg : PointConfig) (guessed totalNumber guesses : Nat)
    (showPID fuzzyAllowed : Bool) : ℚ :=
  let p0 : ℚ := cfg.pointFactor * guessed * guessed / totalNumber - cfg.guessPenalty * guesses
  let p1 := if showPID then p0 * showPidPenalty else p0
  let p2 := if fuzzyAllowed then p1 * fuzzyPenalty else p1
  if guessed = totalNumber then p2 * cfg.rewardFactor else p2

/-- Point-mode session state (`pointGame`'s data members). -/
structure PGame where
  cfg : PointConfig
  snippet : CodeSnippet
  totalNumber : Nat
  guesses : Nat
  fuzzyAllowed : Bool
  showPID : Bool
deriving DecidableEq, Repr

/-- Current points of a point-mode session (`calcPoint` applied to the
session's live data). -/
def PGame.points (gm : PGame) : ℚ :=
  calcPoint gm.cfg gm.snippet.getGuessedNumber gm.totalNumber gm.guesses
    gm.showPID gm.fuzzyAllowed

/-- Termination test `pointGame::isOver`: the game never auto-ends. -/
def pointGame.isOver (_gm : PGame) : Bool := false

/-- One emitted history record (the data `saveStatistics` hands to
`StatisticsRepo::addGame`): the mode tag, the Win/Lose label put in the
history line, and the numeric outcome. -/
structure HistoryEntry where
  gameType : String
  resultLabel : String
  value : ℚ
deriving DecidableEq, Repr

/-- `pointGame::saveStatistics`: records the point value and labels the
history line with the `isWin` flag it was called with. -/
def pointGame.saveStatistics (gm : PGame) (isWin : Bool) : HistoryEntry :=
  { gameType := "point", resultLabel := if isWin then "Win" else "Lose",
    value := gm.points }

/-- `pointGame::Win`: emits the record with the win flag set. -/
def pointGame.Win (gm : PGame) : HistoryEntry := pointGame.saveStatistics gm true

/-- `pointGame::Lose` (source lines 925-931): the body literally returns
`Win()` - point mode has no losing outcome, even for negative points. -/
def pointGame.Lose (gm : PGame) : HistoryEntry := pointGame.Win gm

/-! ### Basic lemmas about lines and range updates -/

theorem stateAt_nil (p : Nat) : stateAt [] p = CellState.unguessed := rfl

theorem stateAt_cons_zero (c : Char × CellState) (l : Line) : stateAt (c :: l) 0 = c.2 := rfl

theorem stateAt_cons_succ (c : Char × CellState) (l : Line) (p : Nat) :
    stateAt (c :: l) (p + 1) = stateAt l p := rfl

theorem updRange_nil (f : CellState → CellState) (j len : Nat) : updRange f j len [] = [] := by
  simp [updRange]

theorem updRange_zero_zero (f : CellState → CellState) (l : Line) : updRange f 0 0 l = l := by
  cases l <;> simp [updRange]

theorem updRange_zero_succ (f : CellState → CellState) (len : Nat) (c : Char × CellState)
    (l : Line) : updRange f 0 (len + 1) (c :: l) = (c.1, f c.2) :: updRange f 0 len l := rfl

theorem updRange_succ (f : CellState → CellState) (j len : Nat) (c : Char × CellState)
    (l : Line) : updRange f (j + 1) len (c :: l) = c :: updRange f j len l := rfl

theorem lineChars_updRange (f : CellState → CellState) (j len : Nat) (l : Line) :
    lineChars (updRange f j len l) = lineChars l := by
  induction l generalizing j len with
  | nil => simp [updRange_nil]
  | cons c l ih =>
    cases j with
    | zero =>
      cases len with
      | zero => rw [updRange_zero_zero]
      | succ len' =>
        rw [updRange_zero_succ]
        show c.1 :: lineChars (updRange f 0 len' l) = c.1 :: lineChars l
        rw [ih 0 len']
    | succ j' =>
      rw [updRange_succ]
      show c.1 :: lineChars (updRange f j' len l) = c.1 :: lineChars l
      rw [ih j' len]

theorem length_updRange (f : CellState → CellState) (j len : Nat) (l : Line) :
    (updRange f j len l).length = l.length := by
  have h := congrArg List.length (lineChars_updRange f j len l)
  simpa [lineChars] using h

theorem stateAt_updRange (f : CellState → CellState) (l : Line) (j len p : Nat) :
    stateAt (updRange f j len l) p =
      if j ≤ p ∧ p < j + len ∧ p < l.length then f (stateAt l p) else stateAt l p := by
  induction l generalizing j len p with
  | nil => rw [updRange_nil, if_neg (by simp)]
  | cons c l ih =>
    cases j with
    | zero =>
      cases len with
      | zero => rw [updRange_zero_zero, if_neg (by omega)]
      | succ len' =>
        cases p with
        | zero =>
          rw [updRange_zero_succ, if_pos ⟨Nat.le_refl 0, by omega, by simp⟩]
          rfl
        | succ p' =>
          rw [updRange_zero_succ, stateAt_cons_succ, stateAt_cons_succ, ih 0 len' p']
          simp only [List.length_cons]
          by_cases h : 0 ≤ p' ∧ p' < 0 + len' ∧ p' < l.length
          · rw [if_pos h, if_pos (by omega)]
          · rw [if_neg h, if_neg (by omega)]
    | succ j' =>
      cases p with
      | zero => rw [updRange_succ, if_neg (by omega), stateAt_cons_zero, stateAt_cons_zero]
      | succ p' =>
        rw [updRange_succ, stateAt_cons_succ, stateAt_cons_succ, ih j' len p']
        simp only [List.length_cons]
        by_cases h : j' ≤ p' ∧ p' < j' + len ∧ p' < l.length
        · rw [if_pos h, if_pos (by omega)]
        · rw [if_neg h, if_neg (by omega)]

/-! ### Lemmas about the window scan -/

theorem guessWindow_exact (g : List Char) (fa : Bool) (l : Line) (e f j : Nat)
    (hw : windowText l j g.length = g) :
    guessWindow g fa (l, e, f) j = (updRange exactUpd j g.length l, e + 1, f) := by
  simp [guessWindow, hw]

theorem guessWindow_fuzzy (g : List Char) (l : Line) (e f j : Nat)
    (hne : windowText l j g.length ≠ g)
    (hfail : failCount (windowText l j g.length) g ≤ FUZZY_FAIL)
    (hcnt : FUZZY_COUNT ≤ significant g) :
    guessWindow g true (l, e, f) j = (updRange fuzzyUpd j g.length l, e, f + 1) := by
  simp [guessWindow, hne, hfail, hcnt]

theorem guessWindow_skip (g : List Char) (fa : Bool) (l : Line) (e f j : Nat)
    (hne : windowText l j g.length ≠ g)
    (hno : ¬(fa = true ∧ failCount (windowText l j g.length) g ≤ FUZZY_FAIL ∧
      FUZZY_COUNT ≤ significant g)) :
    guessWindow g fa (l, e, f) j = (l, e, f) := by
  simp only [guessWindow]
  rw [if_neg hne, if_neg hno]

theorem lineChars_guessWindow (g : List Char) (fa : Bool) (acc : Line × Nat × Nat) (j : Nat) :
    lineChars (guessWindow g fa acc j).1 = lineChars acc.1 := by
  unfold guessWindow
  split
  · exact lineChars_updRange _ _ _ _
  · split
    · exact lineChars_updRange _ _ _ _
    · rfl

theorem length_guessWindow (g : List Char) (fa : Bool) (acc : Line × Nat × Nat) (j : Nat) :
    ((guessWindow g fa acc j).1).length = acc.1.length := by
  have h := congrArg List.length (lineChars_guessWindow g fa acc j)
  simpa [lineChars] using h

theorem stateAt_guessWindow_exact (g : List Char) (fa : Bool) (acc : Line × Nat × Nat)
    (j p : Nat) (h : stateAt acc.1 p = CellState.exactMatch) :
    stateAt (guessWindow g fa acc j).1 p = CellState.exactMatch := by
  unfold guessWindow
  split
  · rw [stateAt_updRange]
    split
    · rfl
    · exact h
  · split
    · rw [stateAt_updRange]
      split
      · rw [h]; rfl
      · exact h
    · exact h

theorem stateAt_foldl_exact (g : List Char) (fa : Bool) (js : List Nat) :
    ∀ (acc : Line × Nat × Nat) (p : Nat), stateAt acc.1 p = CellState.exactMatch →
      stateAt ((js.foldl (guessWindow g fa) acc).1) p = CellState.exactMatch := by
  induction js with
  | nil => intro acc p h; simpa using h
  | cons j js ih =>
    intro acc p h
    rw [List.foldl_cons]
    exact ih _ p (stateAt_guessWindow_exact g fa acc j p h)

theorem foldl_guessWindow_spec (g : List Char) (fa : Bool) (js : List Nat) :
    ∀ (l : Line) (e f : Nat),
      lineChars ((js.foldl (guessWindow g fa) (l, e, f)).1) = lineChars l ∧
      (js.foldl (guessWindow g fa) (l, e, f)).2.1 =
        e + js.countP (exactCond (lineChars l) g) ∧
      (js.foldl (guessWindow g fa) (l, e, f)).2.2 =
        f + if fa = true then js.countP (fuzzyCond (lineChars l) g) else 0 := by
  induction js with
  | nil => intro l e f; simp
  | cons j js ih =>
    intro l e f
    rw [List.foldl_cons]
    by_cases hex : windowText l j g.length = g
    · rw [guessWindow_exact g fa l e f j hex]
      obtain ⟨h1, h2, h3⟩ := ih (updRange exactUpd j g.length l) (e + 1) f
      rw [lineChars_updRange] at h1 h2 h3
      have hcj : exactCond (lineChars l) g j = true := by
        simpa [exactCond, windowText] using hex
      have hfj : fuzzyCond (lineChars l) g j = false := by
        simp [fuzzyCond, hcj]
      refine ⟨h1, ?_, ?_⟩
      · rw [h2, List.countP_cons, hcj]
        simp
        omega
      · rw [h3, List.countP_cons, hfj]
        simp
    · have hcj : exactCond (lineChars l) g j = false := by
        simpa [exactCond, windowText] using hex
      by_cases hfz : fa = true ∧ failCount (windowText l j g.length) g ≤ FUZZY_FAIL ∧
        FUZZY_COUNT ≤ significant g
      · obtain ⟨hfa, hfail, hcnt⟩ := hfz
        subst hfa
        rw [guessWindow_fuzzy g l e f j hex hfail hcnt]
        obtain ⟨h1, h2, h3⟩ := ih (updRange fuzzyUpd j g.length l) e (f + 1)
        rw [lineChars_updRange] at h1 h2 h3
        have hfj : fuzzyCond (lineChars l) g j = true := by
          simp only [fuzzyCond, hcj, Bool.not_false, Bool.true_and, Bool.and_eq_true,
            decide_eq_true_eq]
          exact ⟨by simpa [windowText] using hfail, hcnt⟩
        refine ⟨h1, ?_, ?_⟩
        · rw [h2, List.countP_cons, hcj]
          simp
        · rw [h3, List.countP_cons, hfj]
          simp
          omega
      · rw [guessWindow_skip g fa l e f j hex hfz]
        obtain ⟨h1, h2, h3⟩ := ih l e f
        refine ⟨h1, ?_, ?_⟩
        · rw [h2, List.countP_cons, hcj]
          simp
        · rw [h3, List.countP_cons]
          by_cases hfa : fa = true
          · subst hfa
            have hfj : fuzzyCond (lineChars l) g j = false := by
              by_cases hfail : failCount (windowTextC (lineChars l) j g.length) g ≤ FUZZY_FAIL
              · by_cases hcnt : FUZZY_COUNT ≤ significant g
                · exact absurd ⟨rfl, by simpa [windowText] using hfail, hcnt⟩ hfz
                · simp [fuzzyCond, hcnt]
              · simp [fuzzyCond, hfail]
            rw [hfj]
            simp
          · simp [hfa]

theorem foldl_sets_exact_window (g : List Char) (fa : Bool) (js : List Nat) :
    ∀ (l : Line) (e f j : Nat), j ∈ js → windowText l j g.length = g →
      ∀ k, k < g.length → j + k < l.length →
      stateAt ((js.foldl (guessWindow g fa) (l, e, f)).1) (j + k) = CellState.exactMatch := by
  induction js with
  | nil => intro l e f j h; exact absurd h (List.not_mem_nil j)
  | cons j' js ih =>
    intro l e f j hmem hw k hk hb
    rw [List.foldl_cons]
    rcases List.mem_cons.mp hmem with heq | hmem'
    · subst heq
      rw [guessWindow_exact g fa l e f j hw]
      apply stateAt_foldl_exact
      show stateAt (updRange exactUpd j g.length l) (j + k) = CellState.exactMatch
      rw [stateAt_updRange, if_pos ⟨Nat.le_add_right j k, by omega, hb⟩]
      rfl
    · have hchars : lineChars (guessWindow g fa (l, e, f) j').1 = lineChars l :=
        lineChars_guessWindow g fa (l, e, f) j'
      have hlen : ((guessWindow g fa (l, e, f) j').1).length = l.length :=
        length_guessWindow g fa (l, e, f) j'
      have hw' : windowText (guessWindow g fa (l, e, f) j').1 j g.length = g := by
        unfold windowText
        rw [hchars]
        exact hw
      have hb' : j + k < ((guessWindow g fa (l, e, f) j').1).length := by
        rw [hlen]; exact hb
      exact ih (guessWindow g fa (l, e, f) j').1 (guessWindow g fa (l, e, f) j').2.1
        (guessWindow g fa (l, e, f) j').2.2 j hmem' hw' k hk hb'

theorem guessLine_chars (g : List Char) (fa : Bool) (l : Line) :
    lineChars (guessLine g fa l).1 = lineChars l :=
  (foldl_guessWindow_spec g fa (windowStarts l.length g.length) l 0 0).1

theorem guessLine_counts (g : List Char) (fa : Bool) (l : Line) :
    (guessLine g fa l).2.1 =
      (windowStarts l.length g.length).countP (exactCond (lineChars l) g) ∧
    (guessLine g fa l).2.2 =
      if fa = true then (windowStarts l.length g.length).countP (fuzzyCond (lineChars l) g)
      else 0 := by
  obtain ⟨_, h2, h3⟩ := foldl_guessWindow_spec g fa (windowStarts l.length g.length) l 0 0
  exact ⟨by simpa using h2, by simpa using h3⟩

/-! ### Shared concrete examples used by the witnesses -/

/-- The guess string "int" of the spec's worked examples. -/
def gInt : List Char := ['i', 'n', 't']

/-- A freshly loaded line holding "int  " (with the two blanks of the
`MIN_LEN - 1` padding). -/
def lInt : Line := mkLine ['i', 'n', 't', ' ', ' ']

/-- A freshly loaded line holding "ine" (the spec's fuzzy example). -/
def lIne : Line := mkLine ['i', 'n', 'e']

/-- A two-character line, shorter than any legal guess. -/
def lShort : Line := mkLine ['a', 'b']

/-! ### Claim theorems -/

/-- Claim C1: for a guess of length at least `MIN_LEN` and a scanned window
whose text equals the guess verbatim, the scan step increments the exact
counter and not the fuzzy counter, every position of the window ends the
call `exactMatch` (overwriting any prior fuzzy state), the two counters of
the whole line scan count exactly the exact-condition windows and (only
when fuzzy is allowed) the fuzzy-condition windows, and an exact window
never satisfies the fuzzy condition - so no window is counted as both
exact and fuzzy in one call. -/
theorem claim1_exact_window (g : List Char) (fa : Bool) (l : Line) (j k e f : Nat)
    (h3 : MIN_LEN ≤ g.length) (hj : j ∈ windowStarts l.length g.length)
    (hw : windowText l j g.length = g) (hk : k < g.length) :
    guessWindow g fa (l, e, f) j = (updRange exactUpd j g.length l, e + 1, f) ∧
    stateAt (guessLine g fa l).1 (j + k) = CellState.exactMatch ∧
    (guessLine g fa l).2.1 =
      (windowStarts l.length g.length).countP (exactCond (lineChars l) g) ∧
    (guessLine g fa l).2.2 =
      (if fa = true then (windowStarts l.length g.length).countP (fuzzyCond (lineChars l) g)
       else 0) ∧
    exactCond (lineChars l) g j = true ∧ fuzzyCond (lineChars l) g j = false := by
  have hjlt : j < l.length + 1 - g.length := by
    simpa [windowStarts] using hj
  have hb : j + k < l.length := by omega
  have hce : exactCond (lineChars l) g j = true := by
    simpa [exactCond, windowText] using hw
  refine ⟨guessWindow_exact g fa l e f j hw, ?_, (guessLine_counts g fa l).1,
    (guessLine_counts g fa l).2, hce, ?_⟩
  · unfold guessLine
    exact foldl_sets_exact_window g fa _ l 0 0 j hj hw k hk hb
  · simp [fuzzyCond, hce]

/-- Witness for C1 at the spec's example: guess "int" against the line
"int  " at window 0. -/
theorem claim1_witness :
    (MIN_LEN ≤ gInt.length ∧ 0 ∈ windowStarts lInt.length gInt.length ∧
      windowText lInt 0 gInt.length = gInt ∧ 1 < gInt.length) ∧
    (guessWindow gInt true (lInt, 0, 0) 0 = (updRange exactUpd 0 gInt.length lInt, 0 + 1, 0) ∧
     stateAt (guessLine gInt true lInt).1 (0 + 1) = CellState.exactMatch ∧
     (guessLine gInt true lInt).2.1 =
       (windowStarts lInt.length gInt.length).countP (exactCond (lineChars lInt) gInt) ∧
     (guessLine gInt true lInt).2.2 =
       (if true = true then
         (windowStarts lInt.length gInt.length).countP (fuzzyCond (lineChars lInt) gInt)
        else 0) ∧
     exactCond (lineChars lInt) gInt 0 = true ∧ fuzzyCond (lineChars lInt) gInt 0 = false) :=
  ⟨⟨by decide, by decide, by decide, by decide⟩,
   claim1_exact_window gInt true lInt 0 1 0 0 (by decide) (by decide) (by decide) (by decide)⟩

/-- Claim C2: for a guess of length at least `MIN_LEN`, with fuzzy matching
enabled, on a window that is not an exact match, the scan step increments
the fuzzy counter iff `failCount ≤ FUZZY_FAIL` and
`significant ≥ FUZZY_COUNT`; in that case every window position is set to
`fuzzyMatch` only if it is currently `unguessed` (all other positions keep
their state); and the spec's example holds: window "ine" against guess
"int" has `failCount = 1`, `significant = 3`, and is counted as one fuzzy
match by the line scan. -/
theorem claim2_fuzzy_rule (g : List Char) (l : Line) (e f j p : Nat)
    (h3 : MIN_LEN ≤ g.length) (hne : windowText l j g.length ≠ g) :
    ((guessWindow g true (l, e, f) j).2.2 = f + 1 ↔
      failCount (windowText l j g.length) g ≤ FUZZY_FAIL ∧
        FUZZY_COUNT ≤ significant g) ∧
    ((failCount (windowText l j g.length) g ≤ FUZZY_FAIL ∧
        FUZZY_COUNT ≤ significant g) →
      stateAt (guessWindow g true (l, e, f) j).1 p =
        if j ≤ p ∧ p < j + g.length ∧ p < l.length then
          (if stateAt l p = CellState.unguessed then CellState.fuzzyMatch else stateAt l p)
        else stateAt l p) ∧
    failCount (windowTextC ['i', 'n', 'e'] 0 3) ['i', 'n', 't'] = 1 ∧
    significant ['i', 'n', 't'] = 3 ∧
    (guessLine ['i', 'n', 't'] true lIne).2.2 = 1 := by
  refine ⟨⟨?_, ?_⟩, ?_, by decide, by decide, by decide⟩
  · intro hinc
    by_contra hno
    rw [guessWindow_skip g true l e f j hne (fun hc => hno ⟨hc.2.1, hc.2.2⟩)] at hinc
    have hff : f = f + 1 := hinc
    omega
  · intro hc
    rw [guessWindow_fuzzy g l e f j hne hc.1 hc.2]
  · intro hc
    rw [guessWindow_fuzzy g l e f j hne hc.1 hc.2]
    show stateAt (updRange fuzzyUpd j g.length l) p = _
    rw [stateAt_updRange]
    rfl

/-- Witness for C2 at the spec's example: guess "int" against the line
"ine" at window 0, observing position 2. -/
theorem claim2_witness :
    (MIN_LEN ≤ gInt.length ∧ windowText lIne 0 gInt.length ≠ gInt) ∧
    (((guessWindow gInt true (lIne, 0, 0) 0).2.2 = 0 + 1 ↔
      failCount (windowText lIne 0 gInt.length) gInt ≤ FUZZY_FAIL ∧
        FUZZY_COUNT ≤ significant gInt) ∧
    ((failCount (windowText lIne 0 gInt.length) gInt ≤ FUZZY_FAIL ∧
        FUZZY_COUNT ≤ significant gInt) →
      stateAt (guessWindow gInt true (lIne, 0, 0) 0).1 2 =
        if 0 ≤ 2 ∧ 2 < 0 + gInt.length ∧ 2 < lIne.length then
          (if stateAt lIne 2 = CellState.unguessed then CellState.fuzzyMatch
           else stateAt lIne 2)
        else stateAt lIne 2) ∧
    failCount (windowTextC ['i', 'n', 'e'] 0 3) ['i', 'n', 't'] = 1 ∧
    significant ['i', 'n', 't'] = 3 ∧
    (guessLine ['i', 'n', 't'] true lIne).2.2 = 1) :=
  ⟨⟨by decide, by decide⟩,
   claim2_fuzzy_rule gInt lIne 0 0 0 2 (by decide) (by decide)⟩

/-- Claim C10: the window scan stays inside the line: for every scanned
window start `j` and every in-window offset `k < len(guess)`, the accessed
position `j + k` is inside the line; and a line shorter than the guess has
an empty window list, so its scan returns the line unchanged with both
counters zero. -/
theorem claim10_window_bounds (g : List Char) (fa : Bool) (l m : Line) (j k : Nat)
    (h3 : MIN_LEN ≤ g.length) (hj : j ∈ windowStarts l.length g.length)
    (hk : k < g.length) (hm : m.length < g.length) :
    j + k < l.length ∧ guessLine g fa m = (m, 0, 0) := by
  have hjlt : j < l.length + 1 - g.length := by
    simpa [windowStarts] using hj
  refine ⟨by omega, ?_⟩
  unfold guessLine
  have hempty : windowStarts m.length g.length = [] := by
    simp only [windowStarts, List.range_eq_nil]
    omega
  rw [hempty]
  rfl

/-- Witness for C10: guess "int" over the five-character line "int  "
(window 1, offset 2) and over the two-character line "ab". -/
theorem claim10_witness :
    (MIN_LEN ≤ gInt.length ∧ 1 ∈ windowStarts lInt.length gInt.length ∧
      2 < gInt.length ∧ lShort.length < gInt.length) ∧
    (1 + 2 < lInt.length ∧ guessLine gInt false lShort = (lShort, 0, 0)) :=
  ⟨⟨by decide, by decide, by decide, by decide⟩,
   claim10_window_bounds gInt false lInt lShort 1 2 (by decide) (by decide) (by decide)
     (by decide)⟩

/-! ### Monotonicity of the reveal grid -/

/-- Numeric value of a reveal state, matching the source's `int` encoding;
reveal states only ever increase in this order. -/
def CellState.rank : CellState → Nat
  | CellState.unguessed => 0
  | CellState.fuzzyMatch => 1
  | CellState.exactMatch => 2

/-- Order on reveal states: never regress. -/
def cellLe (a b : CellState) : Bool := decide (a.rank ≤ b.rank)

theorem cellLe_refl (a : CellState) : cellLe a a = true := by
  simp [cellLe]

theorem cellLe_trans (a b c : CellState) (h1 : cellLe a b = true) (h2 : cellLe b c = true) :
    cellLe a c = true := by
  simp only [cellLe, decide_eq_true_eq] at h1 h2 ⊢
  omega

theorem cellLe_exactUpd (x : CellState) : cellLe x (exactUpd x) = true := by
  cases x <;> decide

theorem cellLe_fuzzyUpd (x : CellState) : cellLe x (fuzzyUpd x) = true := by
  cases x <;> decide

theorem cellLe_exact_eq (b : CellState) (h : cellLe CellState.exactMatch b = true) :
    b = CellState.exactMatch := by
  cases b <;> simp_all [cellLe, CellState.rank]

/-- Pointwise order on lines: same shape, same characters, and no cell's
reveal state regresses. -/
def lineLeB : Line → Line → Bool
  | [], [] => true
  | _ :: _, [] => false
  | [], _ :: _ => false
  | a :: l, b :: m => (a.1 == b.1) && cellLe a.2 b.2 && lineLeB l m

theorem lineLeB_refl (l : Line) : lineLeB l l = true := by
  induction l with
  | nil => rfl
  | cons a l ih => simp [lineLeB, cellLe_refl, ih]

theorem lineLeB_trans : ∀ {l m n : Line}, lineLeB l m = true → lineLeB m n = true →
    lineLeB l n = true := by
  intro l
  induction l with
  | nil =>
    intro m n h1 h2
    cases m <;> cases n <;> simp_all [lineLeB]
  | cons a l ih =>
    intro m n h1 h2
    cases m with
    | nil => simp [lineLeB] at h1
    | cons b m =>
      cases n with
      | nil => simp [lineLeB] at h2
      | cons c n =>
        simp only [lineLeB, Bool.and_eq_true] at h1 h2 ⊢
        obtain ⟨⟨hc1, hr1⟩, ht1⟩ := h1
        obtain ⟨⟨hc2, hr2⟩, ht2⟩ := h2
        refine ⟨⟨?_, cellLe_trans _ _ _ hr1 hr2⟩, ih ht1 ht2⟩
        rw [beq_iff_eq] at hc1 hc2 ⊢
        exact hc1.trans hc2

theorem lineLeB_updRange (f : CellState → CellState) (hf : ∀ x, cellLe x (f x) = true) :
    ∀ (j len : Nat) (l : Line), lineLeB l (updRange f j len l) = true := by
  intro j len l
  induction l generalizing j len with
  | nil => rw [updRange_nil]; rfl
  | cons c l ih =>
    cases j with
    | zero =>
      cases len with
      | zero => rw [updRange_zero_zero]; exact lineLeB_refl _
      | succ len' =>
        rw [updRange_zero_succ]
        show ((c.1 == c.1) && cellLe c.2 (f c.2) && lineLeB l (updRange f 0 len' l)) = true
        simp [hf c.2, ih 0 len']
    | succ j' =>
      rw [updRange_succ]
      show ((c.1 == c.1) && cellLe c.2 c.2 && lineLeB l (updRange f j' len l)) = true
      simp [cellLe_refl, ih j' len]

theorem lineLeB_guessWindow (g : List Char) (fa : Bool) (acc : Line × Nat × Nat) (j : Nat) :
    lineLeB acc.1 (guessWindow g fa acc j).1 = true := by
  unfold guessWindow
  split
  · exact lineLeB_updRange exactUpd cellLe_exactUpd _ _ _
  · split
    · exact lineLeB_updRange fuzzyUpd cellLe_fuzzyUpd _ _ _
    · exact lineLeB_refl _

theorem lineLeB_foldl (g : List Char) (fa : Bool) (js : List Nat) :
    ∀ acc : Line × Nat × Nat, lineLeB acc.1 ((js.foldl (guessWindow g fa) acc).1) = true := by
  induction js with
  | nil => intro acc; exact lineLeB_refl _
  | cons j js ih =>
    intro acc
    rw [List.foldl_cons]
    exact lineLeB_trans (lineLeB_guessWindow g fa acc j) (ih _)

theorem lineLeB_guessLine (g : List Char) (fa : Bool) (l : Line) :
    lineLeB l (guessLine g fa l).1 = true :=
  lineLeB_foldl g fa (windowStarts l.length g.length) (l, 0, 0)

/-- Pointwise order on whole grids (line lists). -/
def linesLeB : List Line → List Line → Bool
  | [], [] => true
  | _ :: _, [] => false
  | [], _ :: _ => false
  | l :: ls, m :: ms => lineLeB l m && linesLeB ls ms

theorem linesLeB_refl (ls : List Line) : linesLeB ls ls = true := by
  induction ls with
  | nil => rfl
  | cons l ls ih => simp [linesLeB, lineLeB_refl, ih]

theorem linesLeB_trans : ∀ {a b c : List Line}, linesLeB a b = true → linesLeB b c = true →
    linesLeB a c = true := by
  intro a
  induction a with
  | nil =>
    intro b c h1 h2
    cases b <;> cases c <;> simp_all [linesLeB]
  | cons l ls ih =>
    intro b c h1 h2
    cases b with
    | nil => simp [linesLeB] at h1
    | cons m ms =>
      cases c with
      | nil => simp [linesLeB] at h2
      | cons n ns =>
        simp only [linesLeB, Bool.and_eq_true] at h1 h2 ⊢
        exact ⟨lineLeB_trans h1.1 h2.1, ih h1.2 h2.2⟩

theorem linesLeB_map (F : Line → Line) (hF : ∀ l, lineLeB l (F l) = true) :
    ∀ ls : List Line, linesLeB ls (ls.map F) = true := by
  intro ls
  induction ls with
  | nil => rfl
  | cons l ls ih => simp [linesLeB, hF l, ih]

theorem linesLeB_setExactLines (i j : Nat) :
    ∀ ls : List Line, linesLeB ls (setExactLines i j ls) = true := by
  intro ls
  induction ls generalizing i with
  | nil => cases i <;> rfl
  | cons l ls ih =>
    cases i with
    | zero =>
      show linesLeB (l :: ls) (updRange exactUpd j 1 l :: ls) = true
      simp [linesLeB, lineLeB_updRange exactUpd cellLe_exactUpd, linesLeB_refl]
    | succ i' =>
      show linesLeB (l :: ls) (l :: setExactLines i' j ls) = true
      simp [linesLeB, lineLeB_refl, ih i']

/-- Grid order used by claim C3. -/
def snippetLeB (s t : CodeSnippet) : Bool := linesLeB s.lines t.lines

theorem snippetLeB_refl (s : CodeSnippet) : snippetLeB s s = true :=
  linesLeB_refl s.lines

theorem snippetLeB_guess (s : CodeSnippet) (g : List Char) :
    snippetLeB s (s.guess g).1 = true := by
  unfold CodeSnippet.guess
  split
  · exact snippetLeB_refl s
  · show linesLeB s.lines
      ((s.lines.map (fun l => guessLine g s.fuzzyAllowed l)).map Prod.fst) = true
    rw [List.map_map]
    exact linesLeB_map _ (fun l => lineLeB_guessLine g s.fuzzyAllowed l) s.lines

theorem snippetLeB_reveal (s : CodeSnippet) (n : Nat) :
    snippetLeB s (s.reveal n) = true := by
  by_cases h : s.posVec = []
  · simp [CodeSnippet.reveal, h, snippetLeB_refl]
  · simp only [CodeSnippet.reveal, if_neg h]
    exact linesLeB_setExactLines _ _ s.lines

theorem snippetLeB_applyOp (s : CodeSnippet) (op : Op) :
    snippetLeB s (applyOp s op) = true := by
  cases op with
  | guessOp g => exact snippetLeB_guess s g
  | revealOp n => exact snippetLeB_reveal s n

theorem lineAll_mono : ∀ {l m : Line}, lineLeB l m = true →
    l.all cellOK = true → m.all cellOK = true := by
  intro l
  induction l with
  | nil =>
    intro m h _
    cases m with
    | nil => rfl
    | cons b m => simp [lineLeB] at h
  | cons a l ih =>
    intro m h hall
    cases m with
    | nil => simp [lineLeB] at h
    | cons b m =>
      simp only [lineLeB, Bool.and_eq_true] at h
      simp only [List.all_cons, Bool.and_eq_true] at hall ⊢
      obtain ⟨⟨hc, hr⟩, ht⟩ := h
      obtain ⟨ha, hrest⟩ := hall
      refine ⟨?_, ih ht hrest⟩
      rw [beq_iff_eq] at hc
      simp only [cellOK, Bool.or_eq_true, decide_eq_true_eq] at ha ⊢
      rcases ha with h1 | h2
      · exact Or.inl (hc ▸ h1)
      · refine Or.inr ?_
        rw [h2] at hr
        exact cellLe_exact_eq b.2 hr

theorem linesAll_mono : ∀ {ls ms : List Line}, linesLeB ls ms = true →
    ls.all (fun l => l.all cellOK) = true → ms.all (fun l => l.all cellOK) = true := by
  intro ls
  induction ls with
  | nil =>
    intro ms h _
    cases ms with
    | nil => rfl
    | cons m ms => simp [linesLeB] at h
  | cons l ls ih =>
    intro ms h hall
    cases ms with
    | nil => simp [linesLeB] at h
    | cons m ms =>
      simp only [linesLeB, Bool.and_eq_true] at h
      simp only [List.all_cons, Bool.and_eq_true] at hall ⊢
      exact ⟨lineAll_mono h.1 hall.1, ih h.2 hall.2⟩

theorem check_mono {s t : CodeSnippet} (h : snippetLeB s t = true) : s.check ≤ t.check := by
  cases hs : s.check with
  | false => exact Bool.false_le _
  | true =>
    have : t.check = true := linesAll_mono h hs
    rw [this]

theorem snippetLeB_applyOps (ops : List Op) : ∀ s : CodeSnippet,
    snippetLeB s (applyOps s ops) = true := by
  induction ops with
  | nil => intro s; exact snippetLeB_refl s
  | cons op ops ih =>
    intro s
    show snippetLeB s (applyOps (applyOp s op) ops) = true
    exact linesLeB_trans (snippetLeB_applyOp s op) (ih (applyOp s op))

/-- Claim C3: over any sequence of grid operations (guesses with any
strings, assist reveals with any random draws), the reveal grid is
monotone: the shape and characters are unchanged and no cell's state ever
decreases in the order unguessed < fuzzyMatch < exactMatch - in
particular no cell leaves `exactMatch` and no `fuzzyMatch` cell returns to
`unguessed` - and consequently once `check` (completion) is true it stays
true. -/
theorem claim3_monotone_reveal (s : CodeSnippet) (ops : List Op) :
    snippetLeB s (applyOps s ops) = true ∧ s.check ≤ (applyOps s ops).check :=
  ⟨snippetLeB_applyOps ops s, check_mono (snippetLeB_applyOps ops s)⟩

/-! ### Claims about the turn cycle -/

/-- A one-line snippet ("int  ") with fuzzy matching on, used as a concrete
session. -/
def exampleSnippet : CodeSnippet := ⟨[lInt], true⟩

/-- A concrete game session right after start: no guesses, game fuzzy
toggle on, PID hidden. -/
def exampleGame : GameState := ⟨exampleSnippet, 0, true, false⟩

/-- Counterexample to claim C4 as stated: the control token "P" has length
1 < MIN_LEN, yet when the PID is hidden `Game::makeGuess` consumes it as a
toggle and replies "PID showing enabled" - not a message quoting the
minimum length.  (The first two branches of the source's makeGuess run
before the length check.) -/
theorem claim4_counterexample :
    (['P'] : List Char).length < MIN_LEN ∧
    (Game.makeGuess (fun _ => 0) [] exampleGame ['P']).2 = ["PID showing enabled"] ∧
    ["PID showing enabled"] ≠ [tooShortMsg] := by
  refine ⟨by decide, by decide, by decide⟩

/-- Claim C4 (amended): for every guess shorter than `MIN_LEN` that is not
one of the consumed control tokens ("P" while the PID is hidden, "F" while
the game's fuzzy toggle is off), `CodeSnippet::guess` returns the
`(-1, -1)` sentinel without mutating the grid, and `Game::makeGuess`
replies with the message quoting the minimum length 3 while leaving the
entire game state (grid, guess counter, toggles) unchanged - no turn is
consumed and no assist reveal happens. -/
theorem claim4_short_guess (revTimes : Nat → Nat) (rands : List Nat) (st : GameState)
    (g : List Char) (hlen : g.length < MIN_LEN)
    (hP : ¬(st.showPID = false ∧ g = ['P']))
    (hF : ¬(st.fuzzyAllowed = false ∧ g = ['F'])) :
    st.snippet.guess g = (st.snippet, -1, -1) ∧
    Game.makeGuess revTimes rands st g = (st, [tooShortMsg]) ∧
    tooShortMsg = "Guess must be at least 3 chars" := by
  have hg : st.snippet.guess g = (st.snippet, -1, -1) := by
    unfold CodeSnippet.guess
    rw [if_pos hlen]
  refine ⟨hg, ?_, by decide⟩
  simp only [Game.makeGuess, if_neg hP, if_neg hF, hg, if_true]

/-- Witness for the amended C4: the two-character guess "ab" on a concrete
session with the PID hidden. -/
theorem claim4_witness :
    ((['a', 'b'] : List Char).length < MIN_LEN ∧
      ¬(exampleGame.showPID = false ∧ (['a', 'b'] : List Char) = ['P']) ∧
      ¬(exampleGame.fuzzyAllowed = false ∧ (['a', 'b'] : List Char) = ['F'])) ∧
    (exampleGame.snippet.guess ['a', 'b'] = (exampleGame.snippet, -1, -1) ∧
     Game.makeGuess (fun _ => 0) [] exampleGame ['a', 'b'] = (exampleGame, [tooShortMsg]) ∧
     tooShortMsg = "Guess must be at least 3 chars") :=
  ⟨⟨by decide, by decide, by decide⟩,
   claim4_short_guess (fun _ => 0) [] exampleGame ['a', 'b'] (by decide) (by decide)
     (by decide)⟩

/-! ### Claims about the game modes -/

/-- Claim C5: the point-mode score is
`pointFactor * guessed^2 / total - guessPenalty * guesses`, then multiplied
by 0.5 when the identifier is shown, by 0.8 when fuzzy matching is
enabled, and by `rewardFactor` when `guessed = total`; and at the spec's
concrete instance (total 100, guessed 100, guesses 10, factor 500, penalty
100, reward 1.5, both toggles off) the score is 73500. -/
theorem claim5_point_formula (cfg : PointConfig) (guessed total guesses : Nat)
    (sp fz : Bool) :
    calcPoint cfg guessed total guesses sp fz =
      (cfg.pointFactor * guessed * guessed / total - cfg.guessPenalty * guesses) *
        (if sp then (1 : ℚ) / 2 else 1) * (if fz then (4 : ℚ) / 5 else 1) *
        (if guessed = total then cfg.rewardFactor else 1) ∧
    calcPoint ⟨100, 500, 3 / 2⟩ 100 100 10 false false = 73500 := by
  constructor
  · unfold calcPoint showPidPenalty fuzzyPenalty
    cases sp <;> cases fz <;> by_cases h : guessed = total <;> simp [h]
  · norm_num [calcPoint, showPidPenalty, fuzzyPenalty]

/-- A snippet consisting of sixty non-blank characters on one line. -/
def sixtySnippet : CodeSnippet := ⟨[mkLine (List.replicate 60 'a')], true⟩

/-- Claim C6: guess-limited start sets the limit to
`max(total / 3 + 5, 30)`, which is 30 for a snippet with 60 guessable
characters, the guess counter starts at 0, and `isOver` holds exactly when
the counter has reached the limit (so it is true after 30 guesses and
false after 29). -/
theorem claim6_guess_limit (s : CodeSnippet) (gm : GLGame) (h : s.getTotalNumber = 60) :
    (guessLimitedStart s).maxGuesses = 30 ∧
    (guessLimitedStart s).guesses = 0 ∧
    (gm.isOver = true ↔ gm.maxGuesses ≤ gm.guesses) ∧
    GLGame.isOver ⟨s, 30, (guessLimitedStart s).maxGuesses⟩ = true ∧
    GLGame.isOver ⟨s, 29, (guessLimitedStart s).maxGuesses⟩ = false := by
  have hmax : (guessLimitedStart s).maxGuesses = 30 := by
    show max (s.getTotalNumber / 3 + 5) 30 = 30
    rw [h]
    decide
  refine ⟨hmax, rfl, ?_, ?_, ?_⟩
  · simp [GLGame.isOver]
  · simp [GLGame.isOver, hmax]
  · simp [GLGame.isOver, hmax]

/-- Witness for C6 on a concrete sixty-character snippet. -/
theorem claim6_witness :
    sixtySnippet.getTotalNumber = 60 ∧
    ((guessLimitedStart sixtySnippet).maxGuesses = 30 ∧
     (guessLimitedStart sixtySnippet).guesses = 0 ∧
     ((guessLimitedStart sixtySnippet).isOver = true ↔
       (guessLimitedStart sixtySnippet).maxGuesses ≤ (guessLimitedStart sixtySnippet).guesses) ∧
     GLGame.isOver ⟨sixtySnippet, 30, (guessLimitedStart sixtySnippet).maxGuesses⟩ = true ∧
     GLGame.isOver ⟨sixtySnippet, 29, (guessLimitedStart sixtySnippet).maxGuesses⟩ = false) :=
  ⟨by decide, claim6_guess_limit sixtySnippet (guessLimitedStart sixtySnippet) (by decide)⟩

/-- Claim C7: whenever the time-attack assist cadence is evaluated at a
time `now` not before the last-assist timestamp, the computed reveal count
is exactly the floor of the elapsed seconds divided by the 10-second
interval (characterized by the two bounds below), and the timestamp
advances by exactly `10 * count` seconds - never past `now`, so the
residual is carried to the next evaluation and no reveal is lost; in
particular 25 elapsed seconds yield exactly 2 reveals and a 20-second
advance. -/
theorem claim7_catchup_reveal (gm : TAGame) (now : Int) (h : gm.lastRevealTime ≤ now) :
    (revealTime : Int) * (timeAttack.revealTimes now gm).1 ≤ now - gm.lastRevealTime ∧
    now - gm.lastRevealTime < (revealTime : Int) * ((timeAttack.revealTimes now gm).1 + 1) ∧
    (timeAttack.revealTimes now gm).2.lastRevealTime =
      gm.lastRevealTime + (revealTime : Int) * (timeAttack.revealTimes now gm).1 ∧
    (timeAttack.revealTimes now gm).2.lastRevealTime ≤ now ∧
    (timeAttack.revealTimes 25 ⟨0⟩).1 = 2 ∧
    (timeAttack.revealTimes 25 ⟨0⟩).2.lastRevealTime = 20 := by
  have h10 : (revealTime : Int) = 10 := rfl
  have hq : (timeAttack.revealTimes now gm).1 = (now - gm.lastRevealTime) / 10 := rfl
  have hl : (timeAttack.revealTimes now gm).2.lastRevealTime =
      gm.lastRevealTime + 10 * ((now - gm.lastRevealTime) / 10) := rfl
  have hdm := Int.ediv_add_emod (now - gm.lastRevealTime) 10
  have hnn := Int.emod_nonneg (now - gm.lastRevealTime) (by norm_num : (10 : ℤ) ≠ 0)
  have hlt := Int.emod_lt_of_pos (now - gm.lastRevealTime) (by norm_num : (0 : ℤ) < 10)
  refine ⟨?_, ?_, ?_, ?_, by decide, by decide⟩
  · rw [hq, h10]; omega
  · rw [hq, h10]; omega
  · rw [hl, h10, hq]
  · rw [hl]; omega

/-- Witness for C7: last assist at time 0, evaluated at time 25. -/
theorem claim7_witness :
    (⟨0⟩ : TAGame).lastRevealTime ≤ (25 : Int) ∧
    ((revealTime : Int) * (timeAttack.revealTimes 25 ⟨0⟩).1 ≤
        25 - (⟨0⟩ : TAGame).lastRevealTime ∧
     25 - (⟨0⟩ : TAGame).lastRevealTime <
        (revealTime : Int) * ((timeAttack.revealTimes 25 ⟨0⟩).1 + 1) ∧
     (timeAttack.revealTimes 25 ⟨0⟩).2.lastRevealTime =
        (⟨0⟩ : TAGame).lastRevealTime +
          (revealTime : Int) * (timeAttack.revealTimes 25 ⟨0⟩).1 ∧
     (timeAttack.revealTimes 25 ⟨0⟩).2.lastRevealTime ≤ 25 ∧
     (timeAttack.revealTimes 25 ⟨0⟩).1 = 2 ∧
     (timeAttack.revealTimes 25 ⟨0⟩).2.lastRevealTime = 20) :=
  ⟨by decide, claim7_catchup_reveal ⟨0⟩ 25 (by decide)⟩

/-- Claim C8: the point-mode constructor succeeds exactly when
`guessPenalty > 0`, `pointFactor > 0` and `rewardFactor ≥ 1`; on success
it stores the three coefficients unmodified, and a violated precondition
yields the configuration error (shown concretely for a non-positive
penalty). -/
theorem claim8_config_validation (p f r : ℚ) :
    (exceptIsOk (pointGameMk p f r) = true ↔ 0 < p ∧ 0 < f ∧ 1 ≤ r) ∧
    (0 < p → 0 < f → 1 ≤ r → pointGameMk p f r = Except.ok ⟨p, f, r⟩) ∧
    pointGameMk (-1) 500 (3 / 2) = Except.error "Penalty must be positive" := by
  have hmk : 0 < p → 0 < f → 1 ≤ r → pointGameMk p f r = Except.ok ⟨p, f, r⟩ := by
    intro hp hf hr
    unfold pointGameMk
    rw [if_neg (by linarith), if_neg (by linarith), if_neg (by linarith)]
  refine ⟨⟨?_, fun hc => ?_⟩, hmk, ?_⟩
  · intro hok
    unfold pointGameMk at hok
    by_cases h1 : p ≤ 0
    · rw [if_pos h1] at hok
      simp [exceptIsOk] at hok
    · by_cases h2 : f ≤ 0
      · rw [if_neg h1, if_pos h2] at hok
        simp [exceptIsOk] at hok
      · by_cases h3 : r < 1
        · rw [if_neg h1, if_neg h2, if_pos h3] at hok
          simp [exceptIsOk] at hok
        · push_neg at h1 h2 h3
          exact ⟨h1, h2, h3⟩
  · rw [hmk hc.1 hc.2.1 hc.2.2]
    rfl
  · norm_num [pointGameMk]

/-- Witness for C8 at the source's default coefficients (100, 500, 1.5). -/
theorem claim8_witness :
    (exceptIsOk (pointGameMk 100 500 (3 / 2)) = true ↔
      0 < (100 : ℚ) ∧ 0 < (500 : ℚ) ∧ 1 ≤ (3 / 2 : ℚ)) ∧
    (0 < (100 : ℚ) → 0 < (500 : ℚ) → 1 ≤ (3 / 2 : ℚ) →
      pointGameMk 100 500 (3 / 2) = Except.ok ⟨100, 500, 3 / 2⟩) ∧
    pointGameMk (-1) 500 (3 / 2) = Except.error "Penalty must be positive" :=
  claim8_config_validation 100 500 (3 / 2)

/-- A three-character snippet with nothing guessed, as a point-mode session
with one guess spent: its score is negative (-100). -/
def negSnippet : CodeSnippet := ⟨[mkLine ['a', 'b', 'c']], false⟩

/-- A concrete point-mode session whose computed score is negative. -/
def negExample : PGame := ⟨⟨100, 500, 3 / 2⟩, negSnippet, 3, 1, false, false⟩

/-- Claim C9: point mode never auto-ends (`isOver` is false in every
session state), and ending the session through `Lose` emits exactly the
same history record as `Win`, labelled "Win" with mode tag "point" - even
for the concrete session whose computed score is negative. -/
theorem claim9_point_no_lose (gm : PGame) :
    pointGame.isOver gm = false ∧
    pointGame.Lose gm = pointGame.Win gm ∧
    (pointGame.Lose gm).resultLabel = "Win" ∧
    (pointGame.Lose gm).gameType = "point" ∧
    negExample.points < 0 ∧
    (pointGame.Lose negExample).value = negExample.points ∧
    (pointGame.Lose negExample).resultLabel = "Win" := by
  refine ⟨rfl, rfl, rfl, rfl, ?_, rfl, rfl⟩
  have hg : negExample.snippet.getGuessedNumber = 0 := by decide
  show calcPoint negExample.cfg negExample.snippet.getGuessedNumber negExample.totalNumber
      negExample.guesses negExample.showPID negExample.fuzzyAllowed < 0
  rw [hg]
  norm_num [calcPoint, showPidPenalty, fuzzyPenalty, negExample]
